import Mathlib

/-!
Shallow embedding of the dataset-discovery module (external.py) and the
inference formatting helper (predict_common.py) of the
waikato-datamining/mmclassification adapter code.

The mmcv file client, the process environment and the file system are
abstracted as explicit function parameters; Python dicts are modelled as
association lists with Python insertion semantics; raised exceptions are
modelled with Except / Option.
-/

namespace MMCls

/-- Python str.strip character class (ASCII whitespace). -/
def isPySpace (c : Char) : Bool :=
  c == ' ' || c == '\t' || c == '\n' || c == '\r' || c == '\x0b' || c == '\x0c'

/-- Python str.strip on a list of characters: drop whitespace from both ends. -/
def pyStrip (s : List Char) : List Char :=
  ((s.dropWhile isPySpace).reverse.dropWhile isPySpace).reverse

/-- Python str.strip on a string. -/
def pyStripS (s : String) : String := String.mk (pyStrip s.data)

/-- Python str.lower restricted to ASCII letters, applied characterwise. -/
def lowerStr (s : String) : String := String.mk (s.data.map Char.toLower)

/-- Python str.endswith for a single candidate suffix. -/
def strEndsWith (s suf : String) : Bool := suf.data.isSuffixOf s.data

/-- Python str.split on a single separator character with no maxsplit. -/
def splitChar (sep : Char) : List Char → List (List Char)
  | [] => [[]]
  | c :: cs =>
      let r := splitChar sep cs
      if c = sep then [] :: r
      else
        match r with
        | [] => [[c]]
        | h :: t => (c :: h) :: t

/-- Python v.split on the comma separator, on strings. -/
def pySplitComma (v : String) : List String :=
  (splitChar ',' v.data).map String.mk

/-- Lexicographic comparison of character lists by code point, with a proper
prefix ordered first: the comparison Python uses on str values. -/
def charListLe : List Char → List Char → Bool
  | [], _ => true
  | _ :: _, [] => false
  | a :: as, b :: bs => if a = b then charListLe as bs else decide (a < b)

/-- Lexicographic order on strings as Python compares str values. -/
def strLe (a b : String) : Prop := charListLe a.data b.data = true

instance : DecidableRel strLe := fun a b =>
  instDecidableEqBool (charListLe a.data b.data) true

/-- Python list.sort on strings: ascending lexicographic order (stable). -/
def pySortStr (l : List String) : List String :=
  List.insertionSort strLe l

/-- Python dict assignment d[k] = v: replace the value at the first matching
key keeping its position, else append the new binding at the end. -/
def dictInsert {α β : Type} [DecidableEq α] :
    List (α × β) → α → β → List (α × β)
  | [], k, v => [(k, v)]
  | p :: rest, k, v =>
      if p.1 = k then (k, v) :: rest else p :: dictInsert rest k v

/-- Python dict built from a list of key-value pairs by repeated assignment. -/
def dictOf {α β : Type} [DecidableEq α] (ps : List (α × β)) : List (α × β) :=
  ps.foldl (fun d p => dictInsert d p.1 p.2) []

instance {ε α : Type} [DecidableEq ε] [DecidableEq α] : DecidableEq (Except ε α)
  | Except.error e, Except.error f =>
      if h : e = f then Decidable.isTrue (h ▸ rfl)
      else Decidable.isFalse (fun hh => h (by cases hh; rfl))
  | Except.error _, Except.ok _ => Decidable.isFalse (fun hh => Except.noConfusion hh)
  | Except.ok _, Except.error _ => Decidable.isFalse (fun hh => Except.noConfusion hh)
  | Except.ok a, Except.ok b =>
      if h : a = b then Decidable.isTrue (h ▸ rfl)
      else Decidable.isFalse (fun hh => h (by cases hh; rfl))

/-- Python set.add on a list model of a set: append when absent. -/
def setInsert (s : List String) (x : String) : List String :=
  if x ∈ s then s else s ++ [x]

/-- find_folders from external.py: the file client returns the immediate
subdirectory names of the root in arbitrary order (the dirs argument); the
code sorts them and builds the dict mapping the folder at sorted position i
to class id i. -/
def find_folders (dirs : List String) : List String × List (String × Nat) :=
  let folders := pySortStr dirs
  (folders, dictOf (folders.enum.map (fun p => (p.2, p.1))))

/-- join_path of the file client, modelled as slash concatenation. -/
def joinPath (a b : String) : String := a ++ "/" ++ b

/-- Body of the outer loop of get_samples for a single folder: list the files
under the folder recursively (listFiles), sort them, and for every valid file
append the sample (join_path folder file, folder_to_idx[folder]) and record
the folder as available. -/
def processFolder (root : String) (folder_to_idx : List (String × Nat))
    (listFiles : String → List String) (valid : String → Bool)
    (st : List (String × Nat) × List String) (folder_name : String) :
    List (String × Nat) × List String :=
  let files := pySortStr (listFiles (joinPath root folder_name))
  files.foldl
    (fun st file =>
      if valid file then
        (st.1 ++ [(joinPath folder_name file,
                   (List.lookup folder_name folder_to_idx).getD 0)],
         setInsert st.2 folder_name)
      else st)
    st

/-- get_samples from external.py: walk the folders in sorted key order,
collect the valid files of each folder as samples, and return with them the
set of folders that contributed no valid file. -/
def get_samples (root : String) (folder_to_idx : List (String × Nat))
    (listFiles : String → List String) (valid : String → Bool) :
    List (String × Nat) × List String :=
  let st := (pySortStr (folder_to_idx.map Prod.fst)).foldl
      (processFolder root folder_to_idx listFiles valid) ([], [])
  (st.1, (folder_to_idx.map Prod.fst).filter (fun k => decide (k ∉ st.2)))

/-- Fatal errors of ExternalDataset sample discovery: the RuntimeError for
zero discovered files and the assertion failure for a class-count mismatch. -/
inductive FindErr : Type where
  | discoveryError : FindErr
  | consistencyError : FindErr
deriving DecidableEq

/-- Successful result of ExternalDataset sample discovery. -/
structure FindOk : Type where
  samples : List (String × Nat)
  classes : List String
  folder_to_idx : List (String × Nat)
  empty_folders : List String
deriving DecidableEq

/-- ExternalDataset find_samples (underscore prefixed in the source): dirs is
the file-client listing of immediate subdirectories of the data prefix,
listFiles the recursive file listing, pre the externally pre-resolved CLASSES
attribute (none when CLASSES is None). The zero-sample check precedes the
class-count check, which compares lengths only. -/
def find_samples (pre : Option (List String)) (root : String)
    (dirs : List String) (listFiles : String → List String)
    (valid : String → Bool) : Except FindErr FindOk :=
  let fr := find_folders dirs
  let gs := get_samples root fr.2 listFiles valid
  if gs.1 = [] then Except.error FindErr.discoveryError
  else
    match pre with
    | some cs =>
        if cs.length = fr.1.length then
          Except.ok (FindOk.mk gs.1 cs fr.2 gs.2)
        else Except.error FindErr.consistencyError
    | none => Except.ok (FindOk.mk gs.1 fr.1 fr.2 gs.2)

/-- One record of the data_infos catalog built by load_annotations. -/
structure DataInfo : Type where
  img_prefix : String
  filename : String
  gt_label : Int
deriving DecidableEq

/-- load_annotations in directory-discovery mode: the catalog is built from
the samples returned by find_samples; a raised error propagates and no
catalog is produced. -/
def load_annotations_dir (pre : Option (List String)) (root : String)
    (dirs : List String) (listFiles : String → List String)
    (valid : String → Bool) : Except FindErr (List DataInfo) :=
  (find_samples pre root dirs listFiles valid).map
    (fun ok => ok.samples.map (fun s => DataInfo.mk root s.1 (Int.ofNat s.2)))

/-- Python s.rsplit on a single space with maxsplit 1: split at the last
occurrence of the space character when one exists, else return the whole
string as the only field. -/
def rsplitSpace1 (s : List Char) : List (List Char) :=
  if (' ' : Char) ∈ s then
    let rev := s.reverse
    [((rev.dropWhile (fun c => c != ' ')).tail).reverse,
     (rev.takeWhile (fun c => c != ' ')).reverse]
  else [s]

/-- One line of load_annotations in annotation-file mode:
x.strip().rsplit applied with separator space and maxsplit 1, then unpacked
into (filename, gt_label); unpacking a single-field result is a Python
ValueError, modelled as none. -/
def parse_ann_line (line : String) : Option (String × String) :=
  match rsplitSpace1 (pyStrip line.data) with
  | [p, l] => some (String.mk p, String.mk l)
  | _ => none

/-- load_class_labels from external.py with the environment and the file
system abstracted: env is the MMCLS_CLASSES value (none when unset) and
fileLines path is the readlines result when the path exists. An exception is
raised only when the variable is unset; the result is sorted in place before
being returned. -/
def load_class_labels (env : Option String)
    (fileLines : String → Option (List String)) : Except Unit (List String) :=
  match env with
  | none => Except.error ()
  | some v =>
      match fileLines v with
      | some lines =>
          match lines with
          | [l] => Except.ok (pySortStr (pySplitComma (pyStripS l)))
          | _ =>
              Except.ok (pySortStr
                ((lines.map pyStripS).filter (fun l => 0 < l.length)))
      | none => Except.ok (pySortStr (pySplitComma v))

/-- Extension preprocessing in the ExternalDataset constructor:
tuple(set(lowercased extensions)); only membership in the resulting tuple is
ever used, so the arbitrary set order is modelled as dedup. -/
def mk_extensions (exts : List String) : List String :=
  (exts.map lowerStr).dedup

/-- is_valid_file from external.py: filename.lower().endswith(extensions). -/
def is_valid_file (exts : List String) (filename : String) : Bool :=
  (mk_extensions exts).any (fun e => strEndsWith (lowerStr filename) e)

/-- Ascending argsort of the score row, np.argsort on axis 1 of the single
row: the list of indices of the row sorted by score. -/
def argsortAsc (scores : List ℚ) : List Nat :=
  List.insertionSort (fun i j => scores.getD i 0 ≤ scores.getD j 0)
    (List.range scores.length)

/-- np.flip of the argsort result: indices in descending score order. -/
def descIdx (scores : List ℚ) : List Nat := (argsortAsc scores).reverse

/-- The top-k loop of inference_model: for k in range(top_k) take the index
at position k of the flipped argsort row, then read CLASSES and the score row
at that index; a failing index access is a Python IndexError, modelled as
none. The result dict is built with Python dict assignment. -/
def topkLoop (scores : List ℚ) (labels : List String) (ds : List Nat)
    (acc : List (String × ℚ)) : List Nat → Option (List (String × ℚ))
  | [] => some acc
  | k :: ks =>
      match ds[k]? with
      | none => none
      | some i =>
          match labels[i]?, scores[i]? with
          | some lab, some sc =>
              topkLoop scores labels ds (dictInsert acc lab sc) ks
          | some _, none => none
          | none, _ => none

/-- inference_model result construction when top_k is supplied: scores is row
zero of the score array and labels is model.CLASSES. -/
def inference_topk (scores : List ℚ) (labels : List String) (top_k : Nat) :
    Option (List (String × ℚ)) :=
  topkLoop scores labels (descIdx scores) [] (List.range top_k)

/-! Order facts for the lexicographic comparison. -/

theorem charListLe_total (as bs : List Char) :
    charListLe as bs = true ∨ charListLe bs as = true := by
  induction as generalizing bs with
  | nil => exact Or.inl rfl
  | cons a as ih =>
    cases bs with
    | nil => exact Or.inr rfl
    | cons b bs =>
      by_cases hab : a = b
      · subst hab
        rcases ih bs with h | h
        · left; simpa [charListLe] using h
        · right; simpa [charListLe] using h
      · rcases lt_or_gt_of_ne hab with h | h
        · left; simp [charListLe, hab, h]
        · right; simp [charListLe, Ne.symm hab, h]

theorem charListLe_trans (as bs cs : List Char)
    (h1 : charListLe as bs = true) (h2 : charListLe bs cs = true) :
    charListLe as cs = true := by
  induction as generalizing bs cs with
  | nil => rfl
  | cons a as ih =>
    cases bs with
    | nil => simp [charListLe] at h1
    | cons b bs =>
      cases cs with
      | nil => simp [charListLe] at h2
      | cons c cs =>
        by_cases hab : a = b
        · subst hab
          simp only [charListLe, if_pos rfl] at h1
          by_cases hac : a = c
          · subst hac
            simp only [charListLe, if_pos rfl] at h2 ⊢
            exact ih bs cs h1 h2
          · simp only [charListLe, if_neg hac] at h2 ⊢
            exact h2
        · have hlt : a < b := by simpa [charListLe, hab] using h1
          by_cases hbc : b = c
          · subst hbc
            simp [charListLe, hab, hlt]
          · have hlt2 : b < c := by simpa [charListLe, hbc] using h2
            have hac : a < c := lt_trans hlt hlt2
            simp [charListLe, ne_of_lt hac, hac]

theorem charListLe_antisymm (as bs : List Char)
    (h1 : charListLe as bs = true) (h2 : charListLe bs as = true) : as = bs := by
  induction as generalizing bs with
  | nil =>
    cases bs with
    | nil => rfl
    | cons b bs => simp [charListLe] at h2
  | cons a as ih =>
    cases bs with
    | nil => simp [charListLe] at h1
    | cons b bs =>
      by_cases hab : a = b
      · subst hab
        simp only [charListLe, if_pos rfl] at h1 h2
        rw [ih bs h1 h2]
      · have hlt : a < b := by simpa [charListLe, hab] using h1
        have hlt2 : b < a := by simpa [charListLe, Ne.symm hab] using h2
        exact absurd hlt2 (lt_asymm hlt)

theorem strLe_total (a b : String) : strLe a b ∨ strLe b a :=
  charListLe_total a.data b.data

theorem strLe_trans (a b c : String) (h1 : strLe a b) (h2 : strLe b c) :
    strLe a c :=
  charListLe_trans a.data b.data c.data h1 h2

theorem strLe_antisymm (a b : String) (h1 : strLe a b) (h2 : strLe b a) :
    a = b := by
  cases a with
  | mk as =>
    cases b with
    | mk bs => exact congrArg String.mk (charListLe_antisymm as bs h1 h2)

theorem pySortStr_perm (l : List String) : (pySortStr l).Perm l :=
  List.perm_insertionSort strLe l

theorem pySortStr_sorted (l : List String) : List.Sorted strLe (pySortStr l) := by
  haveI : IsTotal String strLe := ⟨strLe_total⟩
  haveI : IsTrans String strLe := ⟨strLe_trans⟩
  exact List.sorted_insertionSort strLe l

theorem pySortStr_eq_of_perm {l1 l2 : List String} (h : l1.Perm l2) :
    pySortStr l1 = pySortStr l2 := by
  haveI : IsAntisymm String strLe := ⟨strLe_antisymm⟩
  exact List.eq_of_perm_of_sorted
    ((pySortStr_perm l1).trans (h.trans (pySortStr_perm l2).symm))
    (pySortStr_sorted l1) (pySortStr_sorted l2)

/-! Dict facts. -/

theorem dictInsert_of_not_mem {α β : Type} [DecidableEq α]
    (d : List (α × β)) (k : α) (v : β) (h : k ∉ d.map Prod.fst) :
    dictInsert d k v = d ++ [(k, v)] := by
  induction d with
  | nil => rfl
  | cons p rest ih =>
    simp only [List.map_cons, List.mem_cons] at h
    push_neg at h
    simp only [dictInsert]
    rw [if_neg (fun hh => h.1 hh.symm), ih h.2]
    rfl

theorem foldl_dictInsert_eq_append {α β : Type} [DecidableEq α] :
    ∀ (ps d : List (α × β)), ((d ++ ps).map Prod.fst).Nodup →
      ps.foldl (fun d p => dictInsert d p.1 p.2) d = d ++ ps := by
  intro ps
  induction ps with
  | nil => intro d _; simp
  | cons p ps ih =>
    intro d h
    have hk : p.1 ∉ d.map Prod.fst := by
      rw [List.map_append, List.nodup_append] at h
      intro hmem
      exact h.2.2 hmem (by simp)
    rw [List.foldl_cons, dictInsert_of_not_mem d p.1 p.2 hk]
    have h2 : (((d ++ [p]) ++ ps).map Prod.fst).Nodup := by
      simpa [List.append_assoc] using h
    rw [show d ++ [(p.1, p.2)] = d ++ [p] by simp,
      ih (d ++ [p]) h2, List.append_assoc]
    rfl

theorem dictOf_eq_self {α β : Type} [DecidableEq α] (ps : List (α × β))
    (h : (ps.map Prod.fst).Nodup) : dictOf ps = ps :=
  foldl_dictInsert_eq_append ps [] (by simpa using h)

/-! Enumeration facts. -/

theorem enumFrom_swap_map_fst {α : Type} :
    ∀ (n : Nat) (l : List α),
      ((List.enumFrom n l).map (fun p => (p.2, p.1))).map Prod.fst = l := by
  intro n l
  induction l generalizing n with
  | nil => rfl
  | cons a l ih => simp [List.enumFrom, ih]

theorem enum_swap_map_fst {α : Type} (l : List α) :
    ((l.enum.map (fun p => (p.2, p.1))).map Prod.fst) = l :=
  enumFrom_swap_map_fst 0 l

/-- The folder-to-index dict of find_folders is exactly the indexed sorted
folder list when the discovered names are distinct. -/
theorem find_folders_snd_eq (dirs : List String) (hd : dirs.Nodup) :
    (find_folders dirs).2 = (pySortStr dirs).enum.map (fun p => (p.2, p.1)) := by
  have hnd : (pySortStr dirs).Nodup := (pySortStr_perm dirs).nodup_iff.mpr hd
  have hkeys : ((((pySortStr dirs).enum.map (fun p => (p.2, p.1))).map Prod.fst)).Nodup := by
    rw [enum_swap_map_fst]
    exact hnd
  simp only [find_folders]
  exact dictOf_eq_self _ hkeys

/-- C1: find_folders sorts the discovered immediate subfolder names
lexicographically and assigns class id equal to the position in the sorted
order, so the folder-to-index map sends the name at sorted position i to i;
the result is determined by the folder set alone, independent of the order
the file-access layer returned the names. -/
theorem spec_c1 (dirs : List String) (hd : dirs.Nodup) :
    List.Sorted strLe (find_folders dirs).1
    ∧ (∀ (name : String) (i : Nat),
        (name, i) ∈ (find_folders dirs).2 ↔ (find_folders dirs).1[i]? = some name)
    ∧ (∀ dirs2 : List String, dirs2.Perm dirs → find_folders dirs2 = find_folders dirs) := by
  refine ⟨pySortStr_sorted dirs, ?_, ?_⟩
  · intro name i
    have h1 : (find_folders dirs).1 = pySortStr dirs := rfl
    rw [find_folders_snd_eq dirs hd, h1, List.mem_map]
    constructor
    · rintro ⟨p, hp, he⟩
      have : p = (i, name) := by
        cases p
        cases he
        rfl
      subst this
      exact List.mk_mem_enum_iff_getElem?.mp hp
    · intro hget
      exact ⟨(i, name), List.mk_mem_enum_iff_getElem?.mpr hget, rfl⟩
  · intro dirs2 hperm
    simp only [find_folders]
    rw [pySortStr_eq_of_perm hperm]

/-- Witness for C1 at a concrete folder listing. -/
theorem spec_c1_witness :
    List.Sorted strLe (find_folders ["b", "a"]).1
    ∧ (∀ (name : String) (i : Nat),
        (name, i) ∈ (find_folders ["b", "a"]).2 ↔
          (find_folders ["b", "a"]).1[i]? = some name)
    ∧ (∀ dirs2 : List String, dirs2.Perm ["b", "a"] →
        find_folders dirs2 = find_folders ["b", "a"]) :=
  spec_c1 ["b", "a"] (by decide)

/-- C3: in directory-discovery mode, zero valid samples across all folders
make catalog construction raise the fatal discovery error, and no catalog
object is produced (the error propagates through load_annotations). -/
theorem spec_c3 (pre : Option (List String)) (root : String) (dirs : List String)
    (listFiles : String → List String) (valid : String → Bool)
    (h : (get_samples root (find_folders dirs).2 listFiles valid).1 = []) :
    find_samples pre root dirs listFiles valid = Except.error FindErr.discoveryError
    ∧ load_annotations_dir pre root dirs listFiles valid
        = Except.error FindErr.discoveryError := by
  have h1 : find_samples pre root dirs listFiles valid
      = Except.error FindErr.discoveryError := by
    simp only [find_samples]
    rw [if_pos h]
  refine ⟨h1, ?_⟩
  simp only [load_annotations_dir, h1]
  rfl

/-- Witness for C3 at a concrete empty listing. -/
theorem spec_c3_witness :
    find_samples none "r" ["a"] (fun _ => []) (fun _ => true)
        = Except.error FindErr.discoveryError
    ∧ load_annotations_dir none "r" ["a"] (fun _ => []) (fun _ => true)
        = Except.error FindErr.discoveryError :=
  spec_c3 none "r" ["a"] (fun _ => []) (fun _ => true) (by rfl)

/-- C2 counterexample: with a pre-resolved class list of the wrong
cardinality but zero valid samples, construction fails with the discovery
error, not the consistency error, so the claim as stated is false. -/
theorem spec_c2_counterexample :
    (["x", "y"] : List String).length ≠ (find_folders ["a"]).1.length
    ∧ find_samples (some ["x", "y"]) "r" ["a"] (fun _ => []) (fun _ => true)
        = Except.error FindErr.discoveryError
    ∧ find_samples (some ["x", "y"]) "r" ["a"] (fun _ => []) (fun _ => true)
        ≠ Except.error FindErr.consistencyError :=
  ⟨by decide, by rfl, by decide⟩

/-- C2 amended: when the pre-resolved class list has a cardinality different
from the number of discovered folders and at least one valid sample was
discovered, construction fails with the fatal consistency error and no sample
reaches the catalog; only cardinality is compared: class lists of equal
length produce the same error behavior, the names are never cross-checked. -/
theorem spec_c2 (cs : List String) (root : String) (dirs : List String)
    (listFiles : String → List String) (valid : String → Bool) :
    ((get_samples root (find_folders dirs).2 listFiles valid).1 ≠ [] →
      cs.length ≠ (find_folders dirs).1.length →
        find_samples (some cs) root dirs listFiles valid
            = Except.error FindErr.consistencyError
        ∧ load_annotations_dir (some cs) root dirs listFiles valid
            = Except.error FindErr.consistencyError)
    ∧ (∀ cs2 : List String, cs.length = cs2.length → ∀ e : FindErr,
        (find_samples (some cs) root dirs listFiles valid = Except.error e ↔
         find_samples (some cs2) root dirs listFiles valid = Except.error e)) := by
  constructor
  · intro hne hlen
    have h1 : find_samples (some cs) root dirs listFiles valid
        = Except.error FindErr.consistencyError := by
      simp only [find_samples]
      rw [if_neg hne, if_neg hlen]
    refine ⟨h1, ?_⟩
    simp only [load_annotations_dir, h1]
    rfl
  · intro cs2 hlen e
    simp only [find_samples]
    by_cases hs : (get_samples root (find_folders dirs).2 listFiles valid).1 = []
    · simp only [if_pos hs]
    · simp only [if_neg hs]
      by_cases hlc : cs.length = (find_folders dirs).1.length
      · have hlc2 : cs2.length = (find_folders dirs).1.length := by
          rw [← hlen]; exact hlc
        simp only [if_pos hlc, if_pos hlc2]
        constructor <;> (intro hh; exact Except.noConfusion hh)
      · have hlc2 : ¬ cs2.length = (find_folders dirs).1.length := by
          rw [← hlen]; exact hlc
        simp only [if_neg hlc, if_neg hlc2]

/-- Witness for the amended C2 at a concrete mismatched configuration. -/
theorem spec_c2_witness :
    find_samples (some ["x", "y"]) "r" ["a"] (fun _ => ["f.png"]) (fun _ => true)
        = Except.error FindErr.consistencyError
    ∧ load_annotations_dir (some ["x", "y"]) "r" ["a"] (fun _ => ["f.png"])
        (fun _ => true) = Except.error FindErr.consistencyError :=
  (spec_c2 ["x", "y"] "r" ["a"] (fun _ => ["f.png"]) (fun _ => true)).1
    (by decide) (by decide)

/-! Facts about the annotation-line split. -/

theorem takeWhile_ne_append (xs zs : List Char)
    (h : ∀ x ∈ xs, (x != ' ') = true) :
    (xs ++ ' ' :: zs).takeWhile (fun c => c != ' ') = xs
    ∧ (xs ++ ' ' :: zs).dropWhile (fun c => c != ' ') = ' ' :: zs := by
  induction xs with
  | nil => simp [List.takeWhile, List.dropWhile]
  | cons x xs ih =>
    have hx : (x != ' ') = true := h x (by simp)
    have hrest : ∀ y ∈ xs, (y != ' ') = true := fun y hy => h y (by simp [hy])
    obtain ⟨ht, hd⟩ := ih hrest
    constructor
    · simp only [List.cons_append, List.takeWhile_cons, hx, if_true, ht]
    · simp only [List.cons_append, List.dropWhile_cons, hx, if_true, hd]

theorem rsplitSpace1_eq (p l : List Char) (hl : (' ' : Char) ∉ l) :
    rsplitSpace1 (p ++ ' ' :: l) = [p, l] := by
  have hmem : (' ' : Char) ∈ p ++ ' ' :: l := by simp
  have hrev : (p ++ ' ' :: l).reverse = l.reverse ++ ' ' :: p.reverse := by
    simp [List.reverse_append]
  have hall : ∀ x ∈ l.reverse, (x != ' ') = true := by
    intro x hx
    have hxl : x ∈ l := List.mem_reverse.mp hx
    have : x ≠ ' ' := fun heq => hl (heq ▸ hxl)
    simpa using this
  obtain ⟨ht, hd⟩ := takeWhile_ne_append l.reverse p.reverse hall
  simp only [rsplitSpace1, if_pos hmem, hrev, ht, hd]
  simp

/-- C4 amended: every annotation line is stripped of surrounding whitespace
and split at the last occurrence of the space character (not of an arbitrary
whitespace run): when the stripped line is p, one space, then a space-free
tail l, the parse is (p, l) even if p ends in further spaces; when the
stripped line has no space at all the line fails to parse (a tab separator is
not split on); the example line parses as the claim states. -/
theorem spec_c4 :
    (∀ (s : String) (p l : List Char),
       (pyStrip s.data = p ++ ' ' :: l → (' ' : Char) ∉ l →
         parse_ann_line s = some (String.mk p, String.mk l))
       ∧ ((' ' : Char) ∉ pyStrip s.data → parse_ann_line s = none))
    ∧ parse_ann_line "some dir/a b.png 3" = some ("some dir/a b.png", "3") := by
  constructor
  · intro s p l
    constructor
    · intro hstrip hl
      simp only [parse_ann_line, hstrip, rsplitSpace1_eq p l hl]
    · intro hnm
      simp only [parse_ann_line, rsplitSpace1, if_neg hnm]
  · decide

/-- C4 counterexample: a double space before the label leaves the extra space
in the path instead of splitting on the whole whitespace run, and a
tab-separated line is not split at all, contradicting the claim that the
split happens on the last whitespace boundary with the label as final field. -/
theorem spec_c4_counterexample :
    parse_ann_line "a  3" = some ("a ", "3")
    ∧ ("a " : String) ≠ "a"
    ∧ parse_ann_line "a\t3" = none := by decide

/-- Witness for the amended C4 at a concrete line. -/
theorem spec_c4_witness :
    parse_ann_line "a b" = some (String.mk ['a'], String.mk ['b']) :=
  (spec_c4.1 "a b" ['a'] ['b']).1 (by decide) (by decide)

/-- C6: the file-validity predicate accepts a filename exactly when its
lower-cased form ends with one of the lower-cased, de-duplicated configured
extensions; in particular the check depends only on the lower-cased
membership set of the configured extensions. -/
theorem spec_c6 :
    (∀ (E : List String) (f : String),
       is_valid_file E f = true ↔
         ∃ e ∈ (E.map lowerStr).dedup, strEndsWith (lowerStr f) e = true)
    ∧ (∀ E1 E2 : List String,
        (∀ e, e ∈ E1.map lowerStr ↔ e ∈ E2.map lowerStr) →
        ∀ f, is_valid_file E1 f = is_valid_file E2 f) := by
  constructor
  · intro E f
    simp only [is_valid_file, mk_extensions, List.any_eq_true]
  · intro E1 E2 hmem f
    simp only [is_valid_file, mk_extensions]
    refine Bool.eq_iff_iff.mpr ?_
    simp only [List.any_eq_true, List.mem_dedup]
    constructor
    · rintro ⟨e, he, hp⟩
      exact ⟨e, (hmem e).mp he, hp⟩
    · rintro ⟨e, he, hp⟩
      exact ⟨e, (hmem e).mpr he, hp⟩

/-- Witness for C6: a mixed-case extension set with a duplicate after
lower-casing validates the same filename as its de-duplicated form. -/
theorem spec_c6_witness :
    is_valid_file [".PNG"] "x.png" = is_valid_file [".png", ".PNG"] "x.png" :=
  (spec_c6.2 [".PNG"] [".png", ".PNG"]
    (by
      intro e
      have h1 : ([".PNG"] : List String).map lowerStr = [".png"] := by decide
      have h2 : ([".png", ".PNG"] : List String).map lowerStr = [".png", ".png"] := by
        decide
      rw [h1, h2]
      simp)) "x.png"

/-- C7: class-label resolution raises exactly when the external source is
absent; on success the registry is always sorted lexicographically, the
inline value b,a,c resolves to the sorted list, and in a multi-line file the
blank lines are skipped. -/
theorem spec_c7 :
    (∀ fileLines, load_class_labels none fileLines = Except.error ())
    ∧ (∀ (v : String) (fileLines : String → Option (List String)),
        ∃ r, load_class_labels (some v) fileLines = Except.ok r
          ∧ List.Sorted strLe r)
    ∧ load_class_labels (some "b,a,c") (fun _ => none) = Except.ok ["a", "b", "c"]
    ∧ (∀ (v : String) (fileLines : String → Option (List String))
        (lines : List String),
        fileLines v = some lines → lines.length ≠ 1 →
        load_class_labels (some v) fileLines =
          Except.ok (pySortStr
            ((lines.map pyStripS).filter (fun l => 0 < l.length)))) := by
  refine ⟨fun _ => rfl, ?_, by decide, ?_⟩
  · intro v fileLines
    simp only [load_class_labels]
    cases hf : fileLines v with
    | none => exact ⟨_, rfl, pySortStr_sorted _⟩
    | some lines =>
      cases lines with
      | nil => exact ⟨_, rfl, pySortStr_sorted _⟩
      | cons l rest =>
        cases rest with
        | nil => exact ⟨_, rfl, pySortStr_sorted _⟩
        | cons l2 rest2 => exact ⟨_, rfl, pySortStr_sorted _⟩
  · intro v fileLines lines hf hlen
    simp only [load_class_labels, hf]
    cases lines with
    | nil => rfl
    | cons l rest =>
      cases rest with
      | nil => exact absurd rfl hlen
      | cons l2 rest2 => rfl

/-- Witness for C7 on a concrete multi-line file with a blank line. -/
theorem spec_c7_witness :
    load_class_labels (some "p") (fun _ => some ["b", "", " a "]) =
      Except.ok (pySortStr
        (((["b", "", " a "] : List String).map pyStripS).filter
          (fun l => 0 < l.length))) :=
  spec_c7.2.2.2 "p" (fun _ => some ["b", "", " a "]) ["b", "", " a "] rfl
    (by decide)

/-- C9 counterexample: an inline source repeating a label resolves to a
registry with that duplicate kept, so the resolved registry is not
deduplicated. -/
theorem spec_c9_counterexample :
    load_class_labels (some "a,a") (fun _ => none) = Except.ok ["a", "a"]
    ∧ ¬ (["a", "a"] : List String).Nodup := by decide

/-- C9 amended: class-label resolution performs no deduplication: for an
inline source the registry is exactly the sorted parsed token list, a
permutation of the raw tokens, so the registry keeps a label as often as the
source repeats it. -/
theorem spec_c9 (v : String) (fileLines : String → Option (List String))
    (hf : fileLines v = none) :
    load_class_labels (some v) fileLines = Except.ok (pySortStr (pySplitComma v))
    ∧ (pySortStr (pySplitComma v)).Perm (pySplitComma v) := by
  constructor
  · simp only [load_class_labels, hf]
  · exact pySortStr_perm _

/-- Witness for the amended C9 on the duplicate inline source. -/
theorem spec_c9_witness :
    load_class_labels (some "a,a") (fun _ => none)
        = Except.ok (pySortStr (pySplitComma "a,a"))
    ∧ (pySortStr (pySplitComma "a,a")).Perm (pySplitComma "a,a") :=
  spec_c9 "a,a" (fun _ => none) rfl

/-! Facts about the available-folder bookkeeping of get_samples. -/

theorem setInsert_idem (s : List String) (x : String) :
    setInsert (setInsert s x) x = setInsert s x := by
  by_cases h : x ∈ s
  · simp only [setInsert, if_pos h]
  · simp only [setInsert, if_neg h, if_pos (show x ∈ s ++ [x] by simp)]

theorem mem_setInsert (y : String) (s : List String) (x : String) :
    y ∈ setInsert s x ↔ y ∈ s ∨ y = x := by
  by_cases h : x ∈ s
  · rw [setInsert, if_pos h]
    constructor
    · exact Or.inl
    · rintro (hy | rfl)
      · exact hy
      · exact h
  · rw [setInsert, if_neg h]
    simp

theorem any_eq_of_perm {l1 l2 : List String} (h : l1.Perm l2) (p : String → Bool) :
    l1.any p = l2.any p := by
  refine Bool.eq_iff_iff.mpr ?_
  simp only [List.any_eq_true]
  constructor
  · rintro ⟨x, hx, hp⟩
    exact ⟨x, h.mem_iff.mp hx, hp⟩
  · rintro ⟨x, hx, hp⟩
    exact ⟨x, h.mem_iff.mpr hx, hp⟩

theorem processFolder_snd (root : String) (folder_to_idx : List (String × Nat))
    (listFiles : String → List String) (valid : String → Bool)
    (st : List (String × Nat) × List String) (folder_name : String) :
    (processFolder root folder_to_idx listFiles valid st folder_name).2 =
      if (listFiles (joinPath root folder_name)).any valid = true
      then setInsert st.2 folder_name else st.2 := by
  have key : ∀ (files : List String) (st : List (String × Nat) × List String),
      (files.foldl
        (fun st file =>
          if valid file then
            (st.1 ++ [(joinPath folder_name file,
                       (List.lookup folder_name folder_to_idx).getD 0)],
             setInsert st.2 folder_name)
          else st) st).2 =
        if files.any valid = true then setInsert st.2 folder_name else st.2 := by
    intro files
    induction files with
    | nil => intro st; simp
    | cons f fs ih =>
      intro st
      by_cases hv : valid f = true
      · rw [List.foldl_cons, if_pos hv, ih]
        simp [List.any_cons, hv, setInsert_idem]
      · have hv2 : valid f = false := by simpa using hv
        rw [List.foldl_cons, if_neg (by simp [hv2]), ih]
        simp [List.any_cons, hv2]
  rw [processFolder, key,
    any_eq_of_perm (pySortStr_perm (listFiles (joinPath root folder_name))) valid]

theorem foldl_processFolder_mem (root : String)
    (folder_to_idx : List (String × Nat)) (listFiles : String → List String)
    (valid : String → Bool) :
    ∀ (keys : List String) (st : List (String × Nat) × List String) (f : String),
      f ∈ (keys.foldl (processFolder root folder_to_idx listFiles valid) st).2 ↔
        f ∈ st.2 ∨ (f ∈ keys ∧ (listFiles (joinPath root f)).any valid = true) := by
  intro keys
  induction keys with
  | nil => intro st f; simp
  | cons k ks ih =>
    intro st f
    rw [List.foldl_cons, ih, processFolder_snd]
    by_cases hk : (listFiles (joinPath root k)).any valid = true
    · rw [if_pos hk]
      rw [mem_setInsert]
      constructor
      · rintro ((hf | rfl) | ⟨hks, hA⟩)
        · exact Or.inl hf
        · exact Or.inr ⟨by simp, hk⟩
        · exact Or.inr ⟨by simp [hks], hA⟩
      · rintro (hf | ⟨hmem, hA⟩)
        · exact Or.inl (Or.inl hf)
        · rcases List.mem_cons.mp hmem with rfl | hks
          · exact Or.inl (Or.inr rfl)
          · exact Or.inr ⟨hks, hA⟩
    · rw [if_neg hk]
      constructor
      · rintro (hf | ⟨hks, hA⟩)
        · exact Or.inl hf
        · exact Or.inr ⟨by simp [hks], hA⟩
      · rintro (hf | ⟨hmem, hA⟩)
        · exact Or.inl hf
        · rcases List.mem_cons.mp hmem with rfl | hks
          · exact absurd hA hk
          · exact Or.inr ⟨hks, hA⟩

/-- C8: a folder is in the reported empty-folder set exactly when it is a key
of the folder index and none of its files passes the validity predicate;
empty folders are not removed from the folder index or the class list and do
not block successful catalog construction while some folder contributes a
sample. -/
theorem spec_c8 :
    (∀ (root : String) (folder_to_idx : List (String × Nat))
        (listFiles : String → List String) (valid : String → Bool) (f : String),
        f ∈ (get_samples root folder_to_idx listFiles valid).2 ↔
          (f ∈ folder_to_idx.map Prod.fst
           ∧ ∀ file ∈ listFiles (joinPath root f), valid file = false))
    ∧ (∀ (root : String) (dirs : List String)
        (listFiles : String → List String) (valid : String → Bool),
        (get_samples root (find_folders dirs).2 listFiles valid).1 ≠ [] →
        ∃ ok, find_samples none root dirs listFiles valid = Except.ok ok
          ∧ FindOk.classes ok = (find_folders dirs).1
          ∧ FindOk.folder_to_idx ok = (find_folders dirs).2
          ∧ FindOk.empty_folders ok
              = (get_samples root (find_folders dirs).2 listFiles valid).2) := by
  constructor
  · intro root folder_to_idx listFiles valid f
    have hmemav : ∀ g : String,
        g ∈ ((pySortStr (folder_to_idx.map Prod.fst)).foldl
              (processFolder root folder_to_idx listFiles valid) ([], [])).2 ↔
          (g ∈ folder_to_idx.map Prod.fst
           ∧ (listFiles (joinPath root g)).any valid = true) := by
      intro g
      rw [foldl_processFolder_mem]
      have hperm := pySortStr_perm (folder_to_idx.map Prod.fst)
      constructor
      · rintro (hg | ⟨hg, hA⟩)
        · simp at hg
        · exact ⟨hperm.mem_iff.mp hg, hA⟩
      · rintro ⟨hg, hA⟩
        exact Or.inr ⟨hperm.mem_iff.mpr hg, hA⟩
    simp only [get_samples, List.mem_filter, decide_eq_true_eq]
    constructor
    · rintro ⟨hkey, hno⟩
      refine ⟨hkey, fun file hfile => ?_⟩
      rcases Bool.eq_false_or_eq_true (valid file) with h0 | h1
      · exact absurd ((hmemav f).mpr
          ⟨hkey, List.any_eq_true.mpr ⟨file, hfile, h0⟩⟩) hno
      · exact h1
    · rintro ⟨hkey, hval⟩
      refine ⟨hkey, fun hmem => ?_⟩
      rcases (hmemav f).mp hmem with ⟨_, hA⟩
      rw [List.any_eq_false.mpr (fun x hx => by rw [hval x hx]; simp)] at hA
      exact Bool.false_ne_true hA
  · intro root dirs listFiles valid h
    have h1 : find_samples none root dirs listFiles valid
        = Except.ok (FindOk.mk
            (get_samples root (find_folders dirs).2 listFiles valid).1
            (find_folders dirs).1 (find_folders dirs).2
            (get_samples root (find_folders dirs).2 listFiles valid).2) := by
      simp only [find_samples]
      rw [if_neg h]
    exact ⟨_, h1, rfl, rfl, rfl⟩

/-- Witness for C8: one populated and one empty folder, discovery succeeds
and reports the empty folder while keeping it in the index. -/
theorem spec_c8_witness :
    ∃ ok, find_samples none "r" ["a", "b"]
        (fun d => if d = "r/a" then ["x.png"] else []) (fun _ => true)
        = Except.ok ok
      ∧ FindOk.classes ok = (find_folders ["a", "b"]).1
      ∧ FindOk.folder_to_idx ok = (find_folders ["a", "b"]).2
      ∧ FindOk.empty_folders ok
          = (get_samples "r" (find_folders ["a", "b"]).2
              (fun d => if d = "r/a" then ["x.png"] else []) (fun _ => true)).2 :=
  spec_c8.2 "r" ["a", "b"] (fun d => if d = "r/a" then ["x.png"] else [])
    (fun _ => true) (by decide)

/-! Facts about the descending argsort of a score row. -/

theorem argsortAsc_perm (scores : List ℚ) :
    (argsortAsc scores).Perm (List.range scores.length) :=
  List.perm_insertionSort _ _

theorem descIdx_perm (scores : List ℚ) :
    (descIdx scores).Perm (List.range scores.length) :=
  (List.reverse_perm (argsortAsc scores)).trans (argsortAsc_perm scores)

theorem descIdx_length (scores : List ℚ) :
    (descIdx scores).length = scores.length := by
  have h := (descIdx_perm scores).length_eq
  simpa using h

theorem descIdx_nodup (scores : List ℚ) : (descIdx scores).Nodup :=
  (descIdx_perm scores).nodup_iff.mpr (List.nodup_range scores.length)

theorem descIdx_mem_lt (scores : List ℚ) (i : Nat) (h : i ∈ descIdx scores) :
    i < scores.length :=
  List.mem_range.mp ((descIdx_perm scores).mem_iff.mp h)

theorem argsortAsc_sorted (scores : List ℚ) :
    List.Sorted (fun i j => scores.getD i 0 ≤ scores.getD j 0)
      (argsortAsc scores) := by
  haveI : IsTotal Nat (fun i j => scores.getD i 0 ≤ scores.getD j 0) :=
    ⟨fun a b => le_total _ _⟩
  haveI : IsTrans Nat (fun i j => scores.getD i 0 ≤ scores.getD j 0) :=
    ⟨fun a b c hab hbc => le_trans hab hbc⟩
  exact List.sorted_insertionSort _ _

theorem descIdx_sorted (scores : List ℚ) :
    List.Pairwise (fun i j => scores.getD j 0 ≤ scores.getD i 0)
      (descIdx scores) :=
  List.pairwise_reverse.mpr (argsortAsc_sorted scores)

theorem range_map_getD_eq_take {α : Type} (d : α) (l : List α) :
    ∀ k : Nat, k ≤ l.length →
      (List.range k).map (fun j => l.getD j d) = l.take k := by
  intro k
  induction k with
  | zero => intro _; simp
  | succ k ih =>
    intro hk
    have hklt : k < l.length := Nat.lt_of_succ_le hk
    rw [List.range_succ, List.map_append, ih (le_of_lt hklt), List.take_succ,
      List.getElem?_eq_getElem hklt]
    simp only [List.map_cons, List.map_nil]
    rw [List.getD_eq_getElem l d hklt]
    rfl

theorem topkLoop_append (scores : List ℚ) (labels : List String) (ds : List Nat) :
    ∀ (ks : List Nat) (acc : List (String × ℚ)),
      (∀ k ∈ ks, k < ds.length) →
      (∀ i ∈ ds, i < labels.length ∧ i < scores.length) →
      ((acc.map Prod.fst)
        ++ ks.map (fun k => labels.getD (ds.getD k 0) "")).Nodup →
      topkLoop scores labels ds acc ks =
        some (acc ++ ks.map (fun k =>
          (labels.getD (ds.getD k 0) "", scores.getD (ds.getD k 0) 0))) := by
  intro ks
  induction ks with
  | nil => intro acc _ _ _; simp [topkLoop]
  | cons k ks ih =>
    intro acc hks hidx hnd
    have hk : k < ds.length := hks k (by simp)
    have hdg : ds.getD k 0 = ds[k] := List.getD_eq_getElem ds 0 hk
    have hdsk : ds[k]? = some (ds.getD k 0) := by
      rw [List.getElem?_eq_getElem hk, hdg]
    have himem : ds.getD k 0 ∈ ds := by
      rw [hdg]
      exact List.getElem_mem hk
    obtain ⟨hil, his⟩ := hidx _ himem
    have hl : labels[ds.getD k 0]? = some (labels.getD (ds.getD k 0) "") := by
      rw [List.getElem?_eq_getElem hil, List.getD_eq_getElem labels "" hil]
    have hs : scores[ds.getD k 0]? = some (scores.getD (ds.getD k 0) 0) := by
      rw [List.getElem?_eq_getElem his, List.getD_eq_getElem scores 0 his]
    have hfresh : labels.getD (ds.getD k 0) "" ∉ acc.map Prod.fst := by
      intro hmem
      exact (List.nodup_append.mp hnd).2.2 hmem (by simp)
    have hnd2 : (((acc ++ [(labels.getD (ds.getD k 0) "",
        scores.getD (ds.getD k 0) 0)]).map Prod.fst)
        ++ ks.map (fun k => labels.getD (ds.getD k 0) "")).Nodup := by
      simp only [List.map_append, List.map_cons, List.map_nil,
        List.append_assoc, List.singleton_append]
      simpa using hnd
    simp only [topkLoop, hdsk, hl, hs]
    rw [dictInsert_of_not_mem acc _ _ hfresh,
      ih _ (fun j hj => hks j (by simp [hj])) hidx hnd2]
    simp

/-- C5: with K at most the row width, a label list of the same length with
distinct labels, the top-K formatter returns exactly the first K entries of
the descending-score index order: K entries, pairwise descending in score,
each at least as large as every score left out, the index order being a
permutation of all the class indices; and on the concrete row of the claim
with K = 2 the result is dog then bird with their scores. -/
theorem spec_c5 :
    (∀ (scores : List ℚ) (labels : List String) (k : Nat),
       k ≤ scores.length → labels.length = scores.length → labels.Nodup →
       inference_topk scores labels k =
           some (((descIdx scores).take k).map
             (fun i => (labels.getD i "", scores.getD i 0)))
         ∧ (((descIdx scores).take k).map
             (fun i => (labels.getD i "", scores.getD i 0))).length = k
         ∧ List.Pairwise (fun a b => b.2 ≤ a.2)
             (((descIdx scores).take k).map
               (fun i => (labels.getD i "", scores.getD i 0)))
         ∧ (∀ p ∈ ((descIdx scores).take k).map
               (fun i => (labels.getD i "", scores.getD i 0)),
             ∀ i ∈ (descIdx scores).drop k, scores.getD i 0 ≤ p.2)
         ∧ (descIdx scores).Perm (List.range scores.length))
    ∧ inference_topk [1/10, 7/10, 1/5] ["cat", "dog", "bird"] 2
        = some [("dog", 7/10), ("bird", 1/5)] := by
  constructor
  · intro scores labels k hk hlen hnodup
    have hdlen : (descIdx scores).length = scores.length := descIdx_length scores
    have hkd : k ≤ (descIdx scores).length := by rw [hdlen]; exact hk
    have hidx : ∀ i ∈ descIdx scores, i < labels.length ∧ i < scores.length := by
      intro i hi
      have := descIdx_mem_lt scores i hi
      exact ⟨by rw [hlen]; exact this, this⟩
    have htake : (List.range k).map (fun j => (descIdx scores).getD j 0)
        = (descIdx scores).take k :=
      range_map_getD_eq_take 0 (descIdx scores) k hkd
    have htakend : ((descIdx scores).take k).Nodup :=
      (List.take_sublist k (descIdx scores)).nodup (descIdx_nodup scores)
    have hlabnd : (((descIdx scores).take k).map
        (fun i => labels.getD i "")).Nodup := by
      refine List.Nodup.map_on ?_ htakend
      intro x hx y hy hxy
      have hxd : x ∈ descIdx scores := (List.take_sublist k _).mem hx
      have hyd : y ∈ descIdx scores := (List.take_sublist k _).mem hy
      have hxl : x < labels.length := (hidx x hxd).1
      have hyl : y < labels.length := (hidx y hyd).1
      rw [List.getD_eq_getElem labels "" hxl, List.getD_eq_getElem labels "" hyl]
        at hxy
      exact (hnodup.getElem_inj_iff).mp hxy
    have hmain := topkLoop_append scores labels (descIdx scores) (List.range k) []
      (fun j hj => lt_of_lt_of_le (List.mem_range.mp hj) hkd) hidx
      (by
        simp only [List.map_nil, List.nil_append]
        have hcomp : (List.range k).map
            (fun j => labels.getD ((descIdx scores).getD j 0) "")
            = ((descIdx scores).take k).map (fun i => labels.getD i "") := by
          rw [← htake, List.map_map]
          rfl
        rw [hcomp]
        exact hlabnd)
    have hres : inference_topk scores labels k =
        some (((descIdx scores).take k).map
          (fun i => (labels.getD i "", scores.getD i 0))) := by
      rw [inference_topk, hmain]
      congr 1
      simp only [List.nil_append]
      rw [← htake, List.map_map]
      rfl
    refine ⟨hres, ?_, ?_, ?_, descIdx_perm scores⟩
    · rw [List.length_map, List.length_take]
      exact Nat.min_eq_left hkd
    · refine List.pairwise_map.mpr ?_
      exact List.Pairwise.sublist (List.take_sublist k _) (descIdx_sorted scores)
    · intro p hp i hi
      rcases List.mem_map.mp hp with ⟨j, hj, rfl⟩
      have hsplit := descIdx_sorted scores
      rw [← List.take_append_drop k (descIdx scores)] at hsplit
      have h3 := (List.pairwise_append.mp hsplit).2.2
      exact h3 j hj i hi
  · norm_num +decide [inference_topk, descIdx, argsortAsc, topkLoop,
      dictInsert, List.getD]

/-- Witness for C5 at the concrete score row of the claim. -/
theorem spec_c5_witness :
    inference_topk [1/10, 7/10, 1/5] ["cat", "dog", "bird"] 2 =
        some (((descIdx [1/10, 7/10, 1/5]).take 2).map
          (fun i => ((["cat", "dog", "bird"] : List String).getD i "",
            ([1/10, 7/10, 1/5] : List ℚ).getD i 0)))
      ∧ (((descIdx [1/10, 7/10, 1/5]).take 2).map
          (fun i => ((["cat", "dog", "bird"] : List String).getD i "",
            ([1/10, 7/10, 1/5] : List ℚ).getD i 0))).length = 2
      ∧ List.Pairwise (fun a b => b.2 ≤ a.2)
          (((descIdx [1/10, 7/10, 1/5]).take 2).map
            (fun i => ((["cat", "dog", "bird"] : List String).getD i "",
              ([1/10, 7/10, 1/5] : List ℚ).getD i 0)))
      ∧ (∀ p ∈ ((descIdx [1/10, 7/10, 1/5]).take 2).map
            (fun i => ((["cat", "dog", "bird"] : List String).getD i "",
              ([1/10, 7/10, 1/5] : List ℚ).getD i 0)),
          ∀ i ∈ (descIdx [1/10, 7/10, 1/5]).drop 2,
            ([1/10, 7/10, 1/5] : List ℚ).getD i 0 ≤ p.2)
      ∧ (descIdx [1/10, 7/10, 1/5]).Perm
          (List.range ([1/10, 7/10, 1/5] : List ℚ).length) :=
  spec_c5.1 [1/10, 7/10, 1/5] ["cat", "dog", "bird"] 2 (by norm_num)
    (by norm_num) (by decide)

theorem topkLoop_none (scores : List ℚ) (labels : List String) (ds : List Nat) :
    ∀ (ks : List Nat) (acc : List (String × ℚ)),
      (∃ k ∈ ks, ds.length ≤ k) →
      topkLoop scores labels ds acc ks = none := by
  intro ks
  induction ks with
  | nil =>
    rintro acc ⟨k, hk, _⟩
    simp at hk
  | cons k0 ks ih =>
    rintro acc ⟨k, hk, hlen⟩
    rcases List.mem_cons.mp hk with rfl | hk2
    · have hnone : ds[k]? = none := List.getElem?_eq_none hlen
      simp [topkLoop, hnone]
    · cases hds : ds[k0]? with
      | none => simp [topkLoop, hds]
      | some i =>
        cases hl : labels[i]? with
        | none => simp [topkLoop, hds, hl]
        | some lab =>
          cases hsc : scores[i]? with
          | none => simp [topkLoop, hds, hl, hsc]
          | some sc =>
            have hred : topkLoop scores labels ds acc (k0 :: ks)
                = topkLoop scores labels ds (dictInsert acc lab sc) ks := by
              simp [topkLoop, hds, hl, hsc]
            rw [hred]
            exact ih _ ⟨k, hk2, hlen⟩

/-- C10: the top-K formatter does not clamp K to the number of classes: when
top_k exceeds the score-row length the loop indexes the flipped argsort row
out of range and the call fails (IndexError, modelled as none) instead of
returning the available entries. -/
theorem spec_c10 (scores : List ℚ) (labels : List String) (k : Nat)
    (h : scores.length < k) : inference_topk scores labels k = none := by
  rw [inference_topk]
  exact topkLoop_none scores labels (descIdx scores) (List.range k) []
    ⟨scores.length, List.mem_range.mpr h, le_of_eq (descIdx_length scores)⟩

/-- Witness for C10: a one-class row asked for the top three. -/
theorem spec_c10_witness : inference_topk [1/2] ["a"] 3 = none :=
  spec_c10 [1/2] ["a"] 3 (by norm_num)

end MMCls
